import Mathlib

/-!
Verification of the DriveSync repository (`google_drive_sync.py`, `main.py`).

The sync engine keeps a local directory tree and a Google Drive folder tree
mirrored.  Its state is:
  * the local filesystem (relative path → local mtime, from `_scan_local_files`
    plus `os.path.getmtime`),
  * the remote Drive tree (relative path → `{id, modifiedTime}`, from
    `_scan_drive_files`),
  * the metadata ledger `self.metadata` with the two top-level dicts
    `'files'` and `'drive_files'` (`_load_metadata` / `_save_metadata`).

Python dicts keyed by relative path are embedded as association lists with
insert-or-replace assignment (`ainsert`), keeping first-insertion order like a
Python dict.  Local mtimes (floats compared only with `>` and `==`) are
embedded as `Nat`; Drive `modifiedTime` strings (compared only with `==`) stay
`String`.
-/

namespace DriveSync

/-- `d.get(p)` on a path-keyed Python dict embedded as an association list. -/
def alookup {α : Type} : List (String × α) → String → Option α
  | [], _ => none
  | (q, v) :: t, p => if q = p then some v else alookup t p

/-- `d[p] = v` on a path-keyed Python dict: replace the existing binding of
`p` in place, or append a new binding at the end. -/
def ainsert {α : Type} : List (String × α) → String → α → List (String × α)
  | [], p, v => [(p, v)]
  | (q, w) :: t, p, v => if q = p then (p, v) :: t else (q, w) :: ainsert t p v

/-- The dict well-formedness invariant: keys are pairwise distinct. -/
def keysNodup {α : Type} (l : List (String × α)) : Prop :=
  (l.map Prod.fst).Nodup

instance {α : Type} (l : List (String × α)) : Decidable (keysNodup l) := by
  unfold keysNodup; infer_instance

theorem alookup_ainsert {α : Type} (l : List (String × α)) (p q : String) (v : α) :
    alookup (ainsert l p v) q = if q = p then some v else alookup l q := by
  induction l with
  | nil =>
    by_cases h : q = p
    · simp [ainsert, alookup, h]
    · simp [ainsert, alookup, h, Ne.symm h]
  | cons e t ih =>
    obtain ⟨a, b⟩ := e
    by_cases hap : a = p
    · subst hap
      by_cases hq : q = a
      · simp [ainsert, alookup, hq]
      · simp [ainsert, alookup, hq, Ne.symm hq]
    · by_cases hq : q = a
      · subst hq
        simp [ainsert, alookup, hap, Ne.symm hap]
      · simp [ainsert, alookup, hap, hq, Ne.symm hq, ih]

theorem alookup_ainsert_self {α : Type} (l : List (String × α)) (p : String) (v : α) :
    alookup (ainsert l p v) p = some v := by
  simp [alookup_ainsert]

theorem alookup_ainsert_ne {α : Type} (l : List (String × α)) (p q : String) (v : α)
    (h : q ≠ p) : alookup (ainsert l p v) q = alookup l q := by
  simp [alookup_ainsert, h]

theorem mem_of_alookup_eq_some {α : Type} {l : List (String × α)} {p : String} {v : α}
    (h : alookup l p = some v) : (p, v) ∈ l := by
  induction l with
  | nil => simp [alookup] at h
  | cons e t ih =>
    obtain ⟨a, b⟩ := e
    by_cases hap : a = p
    · subst hap
      simp [alookup] at h
      simp [h]
    · simp [alookup, hap] at h
      exact List.mem_cons_of_mem _ (ih h)

theorem alookup_isSome_of_mem {α : Type} {l : List (String × α)} {p : String} {v : α}
    (h : (p, v) ∈ l) : ∃ w, alookup l p = some w := by
  induction l with
  | nil => simp at h
  | cons e t ih =>
    obtain ⟨a, b⟩ := e
    by_cases hap : a = p
    · exact ⟨b, by simp [alookup, hap]⟩
    · rcases List.mem_cons.mp h with h1 | h1
      · cases h1; simp at hap
      · simpa [alookup, hap] using ih h1

theorem alookup_eq_some_of_mem {α : Type} {l : List (String × α)} {p : String} {v : α}
    (hnd : keysNodup l) (h : (p, v) ∈ l) : alookup l p = some v := by
  induction l with
  | nil => simp at h
  | cons e t ih =>
    obtain ⟨a, b⟩ := e
    have hnd' : keysNodup t := (List.nodup_cons.mp hnd).2
    rcases List.mem_cons.mp h with h1 | h1
    · cases h1; simp [alookup]
    · have hap : a ≠ p := by
        intro hap
        subst hap
        exact (List.nodup_cons.mp hnd).1 (List.mem_map.mpr ⟨(a, v), h1, rfl⟩)
      simp [alookup, hap, ih hnd' h1]

theorem alookup_eq_none_of_not_mem_keys {α : Type} {l : List (String × α)} {p : String}
    (h : p ∉ l.map Prod.fst) : alookup l p = none := by
  induction l with
  | nil => simp [alookup]
  | cons e t ih =>
    obtain ⟨a, b⟩ := e
    simp only [List.map_cons, List.mem_cons] at h
    push_neg at h
    simp [alookup, Ne.symm h.1, ih h.2]

theorem ainsert_keys {α : Type} (l : List (String × α)) (p : String) (v : α) :
    (ainsert l p v).map Prod.fst =
      if p ∈ l.map Prod.fst then l.map Prod.fst else l.map Prod.fst ++ [p] := by
  induction l with
  | nil => simp [ainsert]
  | cons e t ih =>
    obtain ⟨a, b⟩ := e
    by_cases hap : a = p
    · subst hap
      simp [ainsert]
    · by_cases hp : p ∈ t.map Prod.fst
      · simp [ainsert, hap, hp, Ne.symm hap, ih]
      · simp [ainsert, hap, hp, Ne.symm hap, ih]

theorem keysNodup_ainsert {α : Type} (l : List (String × α)) (p : String) (v : α)
    (h : keysNodup l) : keysNodup (ainsert l p v) := by
  unfold keysNodup at h ⊢
  rw [ainsert_keys]
  by_cases hp : p ∈ l.map Prod.fst
  · simpa [hp] using h
  · simp only [hp, if_false]
    refine List.Nodup.append h (List.nodup_singleton p) ?_
    intro x hx hx'
    simp at hx'
    exact hp (hx' ▸ hx)

/-!
## Data model

`FileRecord` embeds one entry of `self.metadata['files']` as written by
`_upload_file` (lines 220-225) and `_download_file` (lines 255-260): the key
`'mtime'` (local mtime, float), `'drive_id'` and `'drive_mtime'` (Drive
`modifiedTime` string).
-/

structure FileRecord where
  mtime : Nat
  drive_id : String
  drive_mtime : String
deriving DecidableEq

/-- One value of the dict returned by `_scan_drive_files` (lines 305-309):
`{'id': ..., 'mtime': file.get('modifiedTime')}` keyed by relative path.  The
`'name'` key is only used for log messages and is omitted. -/
structure DriveInfo where
  id : String
  mtime : String
deriving DecidableEq

/-- `self.metadata`: the dict `{'files': {...}, 'drive_files': {...}}`
initialized by `_load_metadata` (lines 121-122). -/
structure Metadata where
  files : List (String × FileRecord)
  drive_files : List (String × String)
deriving DecidableEq

/-- The synchronization state: the local tree (relative path → local mtime,
as observed by `_scan_local_files` + `os.path.getmtime`), the remote Drive
tree (relative path → `DriveInfo`, as observed by `_scan_drive_files`), and
the in-memory metadata. -/
structure World where
  localFs : List (String × Nat)
  remoteFs : List (String × DriveInfo)
  md : Metadata
deriving DecidableEq

/-!
## Change detection

`filesToUpload` embeds the decision loop of `sync_up` (lines 337-347) and
`filesToDownload` / `downloadConflicts` the decision loop of `sync_down`
(lines 372-392).
-/

/-- The per-path test of `sync_up` lines 342-347: a local path is scheduled
for upload when it is absent from `self.metadata['files']`, or its current
mtime is strictly greater than the stored `'mtime'`. -/
def upDecision (files : List (String × FileRecord)) (e : String × Nat) : Option String :=
  match alookup files e.1 with
  | none => some e.1
  | some r => if e.2 > r.mtime then some e.1 else none

/-- `sync_up` lines 337-347: the upload work list. -/
def filesToUpload (localFs : List (String × Nat))
    (files : List (String × FileRecord)) : List String :=
  localFs.filterMap (upDecision files)

/-- The per-path test of `sync_down` lines 374-392: a remote path is
scheduled for download when it does not exist locally, or it exists locally,
has a metadata record, its remote `modifiedTime` differs from the stored
`'drive_mtime'`, and the current local mtime equals the stored `'mtime'`. -/
def downDecision (localFs : List (String × Nat))
    (files : List (String × FileRecord)) (e : String × DriveInfo) :
    Option (String × DriveInfo) :=
  match alookup localFs e.1 with
  | none => some e
  | some lm =>
    match alookup files e.1 with
    | none => none
    | some r =>
      if e.2.mtime ≠ r.drive_mtime then
        if lm = r.mtime then some e else none
      else none

/-- `sync_down` lines 372-392: the download work list. -/
def filesToDownload (localFs : List (String × Nat))
    (files : List (String × FileRecord))
    (remoteFs : List (String × DriveInfo)) : List (String × DriveInfo) :=
  remoteFs.filterMap (downDecision localFs files)

/-- The per-path test behind the `Conflict detected` message of `sync_down`
line 392: locally present, recorded, remote `modifiedTime` changed and local
mtime changed relative to the record. -/
def conflictDecision (localFs : List (String × Nat))
    (files : List (String × FileRecord)) (e : String × DriveInfo) : Option String :=
  match alookup localFs e.1 with
  | none => none
  | some lm =>
    match alookup files e.1 with
    | none => none
    | some r =>
      if e.2.mtime ≠ r.drive_mtime then
        if lm = r.mtime then none else some e.1
      else none

/-- The paths for which `sync_down` reports a conflict. -/
def downloadConflicts (localFs : List (String × Nat))
    (files : List (String × FileRecord))
    (remoteFs : List (String × DriveInfo)) : List String :=
  remoteFs.filterMap (conflictDecision localFs files)

/-!
## Transfer execution

`_upload_file` and `_download_file` run inside a `ThreadPoolExecutor`; each
catches every exception itself (`except Exception`), so a failing item
changes nothing after its failure point and the batch continues.  The
metadata write is the last action of either function, so any failure leaves
the path's ledger entry untouched.  `TransferOutcome` names the observable
outcomes: full success, failure before any state change, and failure after
the remote write (upload) resp. after the local file write (download) but
before the metadata update.
-/

inductive TransferOutcome
  | success
  | failEarly
  | failLate
deriving DecidableEq

/-- Environment choices the model does not compute: the `modifiedTime`
reported by Drive for an update (`files().update`) or a create
(`files().create`), the id of a created file, and the local mtime read back
by `os.path.getmtime` after a download writes the file. -/
structure Oracles where
  updMtime : String → String
  newId : String → String
  newMtime : String → String
  dlMtime : String → Nat

/-- `_upload_file` (lines 173-228) for relative path `p`: read the local
mtime; find a same-named remote file under the resolved parent (keyed here
by relative path); `files().update` if found else `files().create`; then
store `{'mtime': mtime, 'drive_id': id, 'drive_mtime': modifiedTime}` in
`self.metadata['files']`.  A missing local file raises in
`os.path.getmtime`, is caught, and changes nothing. -/
def uploadAttempt (o : Oracles) (tc : TransferOutcome) (w : World) (p : String) : World :=
  match alookup w.localFs p with
  | none => w
  | some m =>
    match tc with
    | .failEarly => w
    | .failLate =>
      match alookup w.remoteFs p with
      | some info =>
        { w with remoteFs := ainsert w.remoteFs p ⟨info.id, o.updMtime p⟩ }
      | none =>
        { w with remoteFs := ainsert w.remoteFs p ⟨o.newId p, o.newMtime p⟩ }
    | .success =>
      match alookup w.remoteFs p with
      | some info =>
        { w with
          remoteFs := ainsert w.remoteFs p ⟨info.id, o.updMtime p⟩,
          md := { w.md with
                  files := ainsert w.md.files p ⟨m, info.id, o.updMtime p⟩ } }
      | none =>
        { w with
          remoteFs := ainsert w.remoteFs p ⟨o.newId p, o.newMtime p⟩,
          md := { w.md with
                  files := ainsert w.md.files p ⟨m, o.newId p, o.newMtime p⟩ } }

/-- `_download_file` (lines 230-263) for `(p, info)` taken from the download
work list: write the downloaded bytes to the local path, read the mtime
back, then store `{'mtime': mtime, 'drive_id': info.id, 'drive_mtime':
drive_mtime}` in `self.metadata['files']`. -/
def downloadAttempt (o : Oracles) (tc : TransferOutcome) (w : World)
    (e : String × DriveInfo) : World :=
  match tc with
  | .failEarly => w
  | .failLate =>
    { w with localFs := ainsert w.localFs e.1 (o.dlMtime e.1) }
  | .success =>
    { w with
      localFs := ainsert w.localFs e.1 (o.dlMtime e.1),
      md := { w.md with
              files := ainsert w.md.files e.1 ⟨o.dlMtime e.1, e.2.id, e.2.mtime⟩ } }

/-- The upload batch of `sync_up` (lines 353-362): each scheduled path is
submitted exactly once; completion order is irrelevant because each
completion touches only its own key, so the batch is folded in list order. -/
def runUploadBatch (o : Oracles) (outc : String → TransferOutcome)
    (ps : List String) (w : World) : World :=
  ps.foldl (fun w p => uploadAttempt o (outc p) w p) w

/-- The download batch of `sync_down` (lines 398-410). -/
def runDownloadBatch (o : Oracles) (outc : String → TransferOutcome)
    (items : List (String × DriveInfo)) (w : World) : World :=
  items.foldl (fun w e => downloadAttempt o (outc e.1) w e) w

/-- `sync_up` (lines 331-364) with every transfer succeeding. -/
def syncUpRun (o : Oracles) (w : World) : World :=
  runUploadBatch o (fun _ => .success) (filesToUpload w.localFs w.md.files) w

/-- `sync_down` (lines 366-412) with every transfer succeeding: the work
list is computed from a fresh Drive scan and the metadata as updated by the
upload phase. -/
def syncDownRun (o : Oracles) (w : World) : World :=
  runDownloadBatch o (fun _ => .success)
    (filesToDownload w.localFs w.md.files w.remoteFs) w

/-- `sync` (lines 414-426): upload phase, then download phase.
`_save_metadata` does not change the in-memory state. -/
def syncCycle (o : Oracles) (w : World) : World :=
  syncDownRun o (syncUpRun o w)

/-!
## Upload phase characterization
-/

/-- The metadata record `_upload_file` stores for path `p` on success when
the local mtime read was `m` (lines 201-225): the Drive id of the updated
file if one already existed, else the id of the created file, paired with
the `modifiedTime` reported by the corresponding API response. -/
def uploadedRecord (o : Oracles) (w : World) (p : String) (m : Nat) : FileRecord :=
  match alookup w.remoteFs p with
  | some info => ⟨m, info.id, o.updMtime p⟩
  | none => ⟨m, o.newId p, o.newMtime p⟩

/-- The remote state of path `p` after `_upload_file` succeeds. -/
def uploadedInfo (o : Oracles) (w : World) (p : String) : DriveInfo :=
  match alookup w.remoteFs p with
  | some info => ⟨info.id, o.updMtime p⟩
  | none => ⟨o.newId p, o.newMtime p⟩

theorem uploadedRecord_eta (o : Oracles) (w : World) (p : String) (m : Nat) :
    uploadedRecord o w p m = ⟨m, (uploadedInfo o w p).id, (uploadedInfo o w p).mtime⟩ := by
  unfold uploadedRecord uploadedInfo
  cases alookup w.remoteFs p <;> rfl

theorem uploadedRecord_congr (o : Oracles) {w w' : World} (p : String) (m : Nat)
    (h : alookup w.remoteFs p = alookup w'.remoteFs p) :
    uploadedRecord o w p m = uploadedRecord o w' p m := by
  unfold uploadedRecord
  rw [h]

theorem uploadedInfo_congr (o : Oracles) {w w' : World} (p : String)
    (h : alookup w.remoteFs p = alookup w'.remoteFs p) :
    uploadedInfo o w p = uploadedInfo o w' p := by
  unfold uploadedInfo
  rw [h]

theorem uploadAttempt_localFs (o : Oracles) (tc : TransferOutcome) (w : World) (p : String) :
    (uploadAttempt o tc w p).localFs = w.localFs := by
  unfold uploadAttempt
  cases h1 : alookup w.localFs p with
  | none => rfl
  | some m =>
    cases tc with
    | failEarly => rfl
    | failLate => cases h2 : alookup w.remoteFs p <;> rfl
    | success => cases h2 : alookup w.remoteFs p <;> rfl

theorem uploadAttempt_drive_files (o : Oracles) (tc : TransferOutcome) (w : World) (p : String) :
    (uploadAttempt o tc w p).md.drive_files = w.md.drive_files := by
  unfold uploadAttempt
  cases h1 : alookup w.localFs p with
  | none => rfl
  | some m =>
    cases tc with
    | failEarly => rfl
    | failLate => cases h2 : alookup w.remoteFs p <;> rfl
    | success => cases h2 : alookup w.remoteFs p <;> rfl

theorem uploadAttempt_lookup_ne (o : Oracles) (tc : TransferOutcome) (w : World)
    (p q : String) (h : q ≠ p) :
    alookup (uploadAttempt o tc w p).md.files q = alookup w.md.files q ∧
    alookup (uploadAttempt o tc w p).remoteFs q = alookup w.remoteFs q := by
  unfold uploadAttempt
  cases h1 : alookup w.localFs p with
  | none => exact ⟨rfl, rfl⟩
  | some m =>
    cases tc with
    | failEarly => exact ⟨rfl, rfl⟩
    | failLate =>
      cases h2 : alookup w.remoteFs p <;>
        exact ⟨rfl, alookup_ainsert_ne _ _ _ _ h⟩
    | success =>
      cases h2 : alookup w.remoteFs p <;>
        exact ⟨alookup_ainsert_ne _ _ _ _ h, alookup_ainsert_ne _ _ _ _ h⟩

theorem uploadAttempt_files_nonsuccess (o : Oracles) (tc : TransferOutcome) (w : World)
    (p : String) (h : tc ≠ .success) :
    (uploadAttempt o tc w p).md.files = w.md.files := by
  unfold uploadAttempt
  cases h1 : alookup w.localFs p with
  | none => rfl
  | some m =>
    cases tc with
    | failEarly => rfl
    | failLate => cases h2 : alookup w.remoteFs p <;> rfl
    | success => exact absurd rfl h

theorem uploadAttempt_success_self (o : Oracles) (w : World) (p : String) (m : Nat)
    (hm : alookup w.localFs p = some m) :
    alookup (uploadAttempt o .success w p).md.files p = some (uploadedRecord o w p m) ∧
    alookup (uploadAttempt o .success w p).remoteFs p = some (uploadedInfo o w p) := by
  unfold uploadAttempt uploadedRecord uploadedInfo
  rw [hm]
  cases h2 : alookup w.remoteFs p <;>
    exact ⟨alookup_ainsert_self _ _ _, alookup_ainsert_self _ _ _⟩

theorem runUploadBatch_nil (o : Oracles) (outc : String → TransferOutcome) (w : World) :
    runUploadBatch o outc [] w = w := rfl

theorem runUploadBatch_cons (o : Oracles) (outc : String → TransferOutcome)
    (p : String) (t : List String) (w : World) :
    runUploadBatch o outc (p :: t) w =
      runUploadBatch o outc t (uploadAttempt o (outc p) w p) := rfl

theorem runUploadBatch_localFs (o : Oracles) (outc : String → TransferOutcome)
    (ps : List String) : ∀ w : World, (runUploadBatch o outc ps w).localFs = w.localFs := by
  induction ps with
  | nil => intro w; rfl
  | cons p t ih =>
    intro w
    rw [runUploadBatch_cons, ih, uploadAttempt_localFs]

theorem runUploadBatch_drive_files (o : Oracles) (outc : String → TransferOutcome)
    (ps : List String) :
    ∀ w : World, (runUploadBatch o outc ps w).md.drive_files = w.md.drive_files := by
  induction ps with
  | nil => intro w; rfl
  | cons p t ih =>
    intro w
    rw [runUploadBatch_cons, ih, uploadAttempt_drive_files]

theorem runUploadBatch_lookup_not_mem (o : Oracles) (outc : String → TransferOutcome)
    (ps : List String) :
    ∀ (w : World) (q : String), q ∉ ps →
      alookup (runUploadBatch o outc ps w).md.files q = alookup w.md.files q ∧
      alookup (runUploadBatch o outc ps w).remoteFs q = alookup w.remoteFs q := by
  induction ps with
  | nil => intro w q _; exact ⟨rfl, rfl⟩
  | cons p t ih =>
    intro w q hq
    have hqp : q ≠ p := fun h => hq (h ▸ List.mem_cons_self p t)
    have hqt : q ∉ t := fun h => hq (List.mem_cons_of_mem p h)
    rw [runUploadBatch_cons]
    obtain ⟨h1, h2⟩ := ih (uploadAttempt o (outc p) w p) q hqt
    obtain ⟨h3, h4⟩ := uploadAttempt_lookup_ne o (outc p) w p q hqp
    exact ⟨h1.trans h3, h2.trans h4⟩

theorem runUploadBatch_lookup_mem_success (o : Oracles) (outc : String → TransferOutcome)
    (ps : List String) :
    ∀ (w : World) (q : String) (m : Nat), ps.Nodup → q ∈ ps → outc q = .success →
      alookup w.localFs q = some m →
      alookup (runUploadBatch o outc ps w).md.files q = some (uploadedRecord o w q m) ∧
      alookup (runUploadBatch o outc ps w).remoteFs q = some (uploadedInfo o w q) := by
  induction ps with
  | nil => intro w q m _ hq; simp at hq
  | cons p t ih =>
    intro w q m hnd hq hsucc hm
    obtain ⟨hp, ht⟩ := List.nodup_cons.mp hnd
    rw [runUploadBatch_cons]
    rcases List.mem_cons.mp hq with h1 | h1
    · subst h1
      obtain ⟨h2, h3⟩ := uploadAttempt_success_self o w q m hm
      obtain ⟨h4, h5⟩ :=
        runUploadBatch_lookup_not_mem o outc t (uploadAttempt o (outc q) w q) q hp
      rw [hsucc] at h4 h5 ⊢
      exact ⟨h4.trans h2, h5.trans h3⟩
    · have hqp : q ≠ p := by
        intro h
        exact hp (h ▸ h1)
      obtain ⟨h2, h3⟩ := uploadAttempt_lookup_ne o (outc p) w p q hqp
      have hm' : alookup (uploadAttempt o (outc p) w p).localFs q = some m := by
        rw [uploadAttempt_localFs]; exact hm
      obtain ⟨h4, h5⟩ := ih (uploadAttempt o (outc p) w p) q m ht h1 hsucc hm'
      rw [h4, h5, uploadedRecord_congr o q m h3, uploadedInfo_congr o q h3]
      exact ⟨rfl, rfl⟩

/-!
## Download phase characterization
-/

theorem downloadAttempt_remoteFs (o : Oracles) (tc : TransferOutcome) (w : World)
    (e : String × DriveInfo) : (downloadAttempt o tc w e).remoteFs = w.remoteFs := by
  cases tc <;> rfl

theorem downloadAttempt_drive_files (o : Oracles) (tc : TransferOutcome) (w : World)
    (e : String × DriveInfo) : (downloadAttempt o tc w e).md.drive_files = w.md.drive_files := by
  cases tc <;> rfl

theorem downloadAttempt_lookup_ne (o : Oracles) (tc : TransferOutcome) (w : World)
    (e : String × DriveInfo) (q : String) (h : q ≠ e.1) :
    alookup (downloadAttempt o tc w e).md.files q = alookup w.md.files q ∧
    alookup (downloadAttempt o tc w e).localFs q = alookup w.localFs q := by
  cases tc with
  | failEarly => exact ⟨rfl, rfl⟩
  | failLate => exact ⟨rfl, alookup_ainsert_ne _ _ _ _ h⟩
  | success => exact ⟨alookup_ainsert_ne _ _ _ _ h, alookup_ainsert_ne _ _ _ _ h⟩

theorem downloadAttempt_files_nonsuccess (o : Oracles) (tc : TransferOutcome) (w : World)
    (e : String × DriveInfo) (h : tc ≠ .success) :
    (downloadAttempt o tc w e).md.files = w.md.files := by
  cases tc with
  | failEarly => rfl
  | failLate => rfl
  | success => exact absurd rfl h

theorem downloadAttempt_success_self (o : Oracles) (w : World) (e : String × DriveInfo) :
    alookup (downloadAttempt o .success w e).localFs e.1 = some (o.dlMtime e.1) ∧
    alookup (downloadAttempt o .success w e).md.files e.1 =
      some ⟨o.dlMtime e.1, e.2.id, e.2.mtime⟩ := by
  exact ⟨alookup_ainsert_self _ _ _, alookup_ainsert_self _ _ _⟩

theorem downloadAttempt_localFs_keysNodup (o : Oracles) (tc : TransferOutcome) (w : World)
    (e : String × DriveInfo) (h : keysNodup w.localFs) :
    keysNodup (downloadAttempt o tc w e).localFs := by
  cases tc with
  | failEarly => exact h
  | failLate => exact keysNodup_ainsert _ _ _ h
  | success => exact keysNodup_ainsert _ _ _ h

theorem runDownloadBatch_nil (o : Oracles) (outc : String → TransferOutcome) (w : World) :
    runDownloadBatch o outc [] w = w := rfl

theorem runDownloadBatch_cons (o : Oracles) (outc : String → TransferOutcome)
    (e : String × DriveInfo) (t : List (String × DriveInfo)) (w : World) :
    runDownloadBatch o outc (e :: t) w =
      runDownloadBatch o outc t (downloadAttempt o (outc e.1) w e) := rfl

theorem runDownloadBatch_remoteFs (o : Oracles) (outc : String → TransferOutcome)
    (items : List (String × DriveInfo)) :
    ∀ w : World, (runDownloadBatch o outc items w).remoteFs = w.remoteFs := by
  induction items with
  | nil => intro w; rfl
  | cons e t ih =>
    intro w
    rw [runDownloadBatch_cons, ih, downloadAttempt_remoteFs]

theorem runDownloadBatch_drive_files (o : Oracles) (outc : String → TransferOutcome)
    (items : List (String × DriveInfo)) :
    ∀ w : World, (runDownloadBatch o outc items w).md.drive_files = w.md.drive_files := by
  induction items with
  | nil => intro w; rfl
  | cons e t ih =>
    intro w
    rw [runDownloadBatch_cons, ih, downloadAttempt_drive_files]

theorem runDownloadBatch_localFs_keysNodup (o : Oracles) (outc : String → TransferOutcome)
    (items : List (String × DriveInfo)) :
    ∀ w : World, keysNodup w.localFs → keysNodup (runDownloadBatch o outc items w).localFs := by
  induction items with
  | nil => intro w h; exact h
  | cons e t ih =>
    intro w h
    rw [runDownloadBatch_cons]
    exact ih _ (downloadAttempt_localFs_keysNodup o _ w e h)

theorem runDownloadBatch_lookup_not_mem (o : Oracles) (outc : String → TransferOutcome)
    (items : List (String × DriveInfo)) :
    ∀ (w : World) (q : String), q ∉ items.map Prod.fst →
      alookup (runDownloadBatch o outc items w).md.files q = alookup w.md.files q ∧
      alookup (runDownloadBatch o outc items w).localFs q = alookup w.localFs q := by
  induction items with
  | nil => intro w q _; exact ⟨rfl, rfl⟩
  | cons e t ih =>
    intro w q hq
    simp only [List.map_cons, List.mem_cons] at hq
    push_neg at hq
    rw [runDownloadBatch_cons]
    obtain ⟨h1, h2⟩ := ih (downloadAttempt o (outc e.1) w e) q hq.2
    obtain ⟨h3, h4⟩ := downloadAttempt_lookup_ne o (outc e.1) w e q hq.1
    exact ⟨h1.trans h3, h2.trans h4⟩

theorem runDownloadBatch_lookup_mem_success (o : Oracles) (outc : String → TransferOutcome)
    (items : List (String × DriveInfo)) :
    ∀ (w : World) (e : String × DriveInfo), keysNodup items → e ∈ items →
      outc e.1 = .success →
      alookup (runDownloadBatch o outc items w).localFs e.1 = some (o.dlMtime e.1) ∧
      alookup (runDownloadBatch o outc items w).md.files e.1 =
        some ⟨o.dlMtime e.1, e.2.id, e.2.mtime⟩ := by
  induction items with
  | nil => intro w e _ he; simp at he
  | cons f t ih =>
    intro w e hnd he hsucc
    have hnd' : (f.1 :: t.map Prod.fst).Nodup := by simpa [keysNodup] using hnd
    obtain ⟨hp, ht⟩ := List.nodup_cons.mp hnd'
    rw [runDownloadBatch_cons]
    rcases List.mem_cons.mp he with h1 | h1
    · subst h1
      obtain ⟨h2, h3⟩ := downloadAttempt_success_self o w e
      obtain ⟨h4, h5⟩ :=
        runDownloadBatch_lookup_not_mem o outc t (downloadAttempt o (outc e.1) w e) e.1 hp
      rw [hsucc] at h4 h5 ⊢
      exact ⟨h5.trans h2, h4.trans h3⟩
    · have hqp : e.1 ≠ f.1 := by
        intro h
        exact hp (h ▸ List.mem_map.mpr ⟨e, h1, rfl⟩)
      obtain ⟨h2, h3⟩ := downloadAttempt_lookup_ne o (outc f.1) w f e.1 hqp
      exact ih (downloadAttempt o (outc f.1) w f) e (by simpa [keysNodup] using ht) h1 hsucc

/-!
## Work-list characterization
-/

theorem upDecision_eq_some {files : List (String × FileRecord)} {e : String × Nat}
    {b : String} (h : upDecision files e = some b) : b = e.1 := by
  unfold upDecision at h
  split at h
  · exact (Option.some_inj.mp h).symm
  · split at h
    · exact (Option.some_inj.mp h).symm
    · exact Option.noConfusion h

theorem downDecision_eq_some {localFs : List (String × Nat)}
    {files : List (String × FileRecord)} {e b : String × DriveInfo}
    (h : downDecision localFs files e = some b) : b = e := by
  unfold downDecision at h
  split at h
  · exact (Option.some_inj.mp h).symm
  · split at h
    · exact Option.noConfusion h
    · split at h
      · split at h
        · exact (Option.some_inj.mp h).symm
        · exact Option.noConfusion h
      · exact Option.noConfusion h

theorem keysNodup_filterMap {α β : Type} (key : β → String) (f : (String × α) → Option β)
    (hf : ∀ e b, f e = some b → key b = e.1) :
    ∀ l : List (String × α), keysNodup l → ((l.filterMap f).map key).Nodup := by
  intro l h
  induction l with
  | nil => simp
  | cons e t ih =>
    have h' : e.1 ∉ t.map Prod.fst ∧ keysNodup t := by
      simpa [keysNodup] using h
    cases hfe : f e with
    | none => simpa [List.filterMap_cons, hfe] using ih h'.2
    | some b =>
      rw [List.filterMap_cons, hfe, List.map_cons, List.nodup_cons]
      refine ⟨?_, ih h'.2⟩
      intro hmem
      rcases List.mem_map.mp hmem with ⟨b', hb', hkey⟩
      rcases List.mem_filterMap.mp hb' with ⟨e', he', hfe'⟩
      have h1 : key b' = e'.1 := hf e' b' hfe'
      have h2 : key b = e.1 := hf e b hfe
      exact h'.1 (by
        rw [← h2, ← hkey, h1]
        exact List.mem_map.mpr ⟨e', he', rfl⟩)

theorem filesToUpload_nodup (localFs : List (String × Nat))
    (files : List (String × FileRecord)) (h : keysNodup localFs) :
    (filesToUpload localFs files).Nodup := by
  have := keysNodup_filterMap (fun s => s) (upDecision files)
    (fun e b hb => upDecision_eq_some hb) localFs h
  simpa [filesToUpload] using this

theorem filesToDownload_keysNodup (localFs : List (String × Nat))
    (files : List (String × FileRecord)) (remoteFs : List (String × DriveInfo))
    (h : keysNodup remoteFs) :
    keysNodup (filesToDownload localFs files remoteFs) := by
  have := keysNodup_filterMap Prod.fst (downDecision localFs files)
    (fun e b hb => by rw [downDecision_eq_some hb]) remoteFs h
  simpa [filesToDownload, keysNodup] using this

theorem mem_filesToUpload_iff (localFs : List (String × Nat))
    (files : List (String × FileRecord)) (q : String) (m : Nat)
    (hnd : keysNodup localFs) (hm : (q, m) ∈ localFs) :
    q ∈ filesToUpload localFs files ↔ upDecision files (q, m) = some q := by
  constructor
  · intro h
    rcases List.mem_filterMap.mp h with ⟨e, he, hfe⟩
    obtain ⟨a, b⟩ := e
    have h1 : q = a := upDecision_eq_some hfe
    subst h1
    have h2 : alookup localFs q = some m := alookup_eq_some_of_mem hnd hm
    have h3 : alookup localFs q = some b := alookup_eq_some_of_mem hnd he
    rw [h2] at h3
    have h4 : m = b := Option.some_inj.mp h3
    rw [← h4] at hfe
    exact hfe
  · intro h
    exact List.mem_filterMap.mpr ⟨(q, m), hm, h⟩

theorem not_mem_filesToUpload (localFs : List (String × Nat))
    (files : List (String × FileRecord)) (q : String) (m : Nat)
    (hm : (q, m) ∈ localFs) (h : q ∉ filesToUpload localFs files) :
    ∃ r, alookup files q = some r ∧ ¬ m > r.mtime := by
  cases h1 : alookup files q with
  | none =>
    exact absurd (List.mem_filterMap.mpr ⟨(q, m), hm, by simp [upDecision, h1]⟩) h
  | some r =>
    by_cases h2 : m > r.mtime
    · exact absurd
        (List.mem_filterMap.mpr ⟨(q, m), hm, by simp [upDecision, h1, h2]⟩) h
    · exact ⟨r, rfl, h2⟩

theorem not_mem_keys_filesToDownload (localFs : List (String × Nat))
    (files : List (String × FileRecord)) (remoteFs : List (String × DriveInfo))
    (q : String) (info : DriveInfo) (hnd : keysNodup remoteFs)
    (hm : (q, info) ∈ remoteFs)
    (hdec : downDecision localFs files (q, info) = none) :
    q ∉ (filesToDownload localFs files remoteFs).map Prod.fst := by
  intro h
  rcases List.mem_map.mp h with ⟨b, hb, hkey⟩
  rcases List.mem_filterMap.mp hb with ⟨e, he, hfe⟩
  have h1 : b = e := downDecision_eq_some hfe
  subst h1
  obtain ⟨a, c⟩ := b
  have h2 : a = q := hkey
  subst h2
  have h3 : alookup remoteFs a = some info := alookup_eq_some_of_mem hnd hm
  have h4 : alookup remoteFs a = some c := alookup_eq_some_of_mem hnd he
  rw [h3] at h4
  have h5 : info = c := Option.some_inj.mp h4
  rw [← h5] at hfe
  rw [hdec] at hfe
  exact Option.noConfusion hfe

/-!
## Second-cycle emptiness
-/

theorem upDecision_congr (F F' : List (String × FileRecord)) (e : String × Nat)
    (hF : alookup F e.1 = alookup F' e.1) : upDecision F e = upDecision F' e := by
  unfold upDecision
  rw [hF]

theorem downDecision_congr (L L' : List (String × Nat))
    (F F' : List (String × FileRecord)) (e : String × DriveInfo)
    (hL : alookup L e.1 = alookup L' e.1) (hF : alookup F e.1 = alookup F' e.1) :
    downDecision L F e = downDecision L' F' e := by
  unfold downDecision
  rw [hL, hF]

theorem upDecision_none_of_le {F : List (String × FileRecord)} {q : String} {m : Nat}
    {r : FileRecord} (h : alookup F q = some r) (hle : ¬ m > r.mtime) :
    upDecision F (q, m) = none := by
  simp [upDecision, h, hle]

theorem downDecision_none_of_eq {L : List (String × Nat)}
    {F : List (String × FileRecord)} {q : String} {info : DriveInfo} {lm : Nat}
    {r : FileRecord} (hL : alookup L q = some lm) (hF : alookup F q = some r)
    (heq : info.mtime = r.drive_mtime) : downDecision L F (q, info) = none := by
  simp [downDecision, hL, hF, heq]

theorem uploadAttempt_remoteFs_keysNodup (o : Oracles) (tc : TransferOutcome) (w : World)
    (p : String) (h : keysNodup w.remoteFs) :
    keysNodup (uploadAttempt o tc w p).remoteFs := by
  unfold uploadAttempt
  cases h1 : alookup w.localFs p with
  | none => exact h
  | some m =>
    cases tc with
    | failEarly => exact h
    | failLate =>
      cases h2 : alookup w.remoteFs p <;> exact keysNodup_ainsert _ _ _ h
    | success =>
      cases h2 : alookup w.remoteFs p <;> exact keysNodup_ainsert _ _ _ h

theorem runUploadBatch_remoteFs_keysNodup (o : Oracles) (outc : String → TransferOutcome)
    (ps : List String) :
    ∀ w : World, keysNodup w.remoteFs → keysNodup (runUploadBatch o outc ps w).remoteFs := by
  induction ps with
  | nil => intro w h; exact h
  | cons p t ih =>
    intro w h
    rw [runUploadBatch_cons]
    exact ih _ (uploadAttempt_remoteFs_keysNodup o _ w p h)

/-- After the upload phase, every local path has a metadata record whose
stored mtime is at least the current local mtime, so `sync_up` would not
schedule it again. -/
theorem syncUpRun_clean (o : Oracles) (w : World) (hl : keysNodup w.localFs)
    (q : String) (m : Nat) (hm : (q, m) ∈ w.localFs) :
    ∃ r, alookup (syncUpRun o w).md.files q = some r ∧ ¬ m > r.mtime := by
  by_cases hq : q ∈ filesToUpload w.localFs w.md.files
  · have hUnd : (filesToUpload w.localFs w.md.files).Nodup := filesToUpload_nodup _ _ hl
    have hlk : alookup w.localFs q = some m := alookup_eq_some_of_mem hl hm
    obtain ⟨h1, h2⟩ := runUploadBatch_lookup_mem_success o (fun _ => .success)
      (filesToUpload w.localFs w.md.files) w q m hUnd hq rfl hlk
    refine ⟨uploadedRecord o w q m, h1, ?_⟩
    rw [uploadedRecord_eta]
    exact lt_irrefl m
  · obtain ⟨hmd, _⟩ := runUploadBatch_lookup_not_mem o (fun _ => .success)
      (filesToUpload w.localFs w.md.files) w q hq
    obtain ⟨r, hr, hle⟩ := not_mem_filesToUpload w.localFs w.md.files q m hm hq
    exact ⟨r, hmd.trans hr, hle⟩

theorem syncUpRun_localFs (o : Oracles) (w : World) :
    (syncUpRun o w).localFs = w.localFs :=
  runUploadBatch_localFs o _ _ w

/-- After a download phase run on a state whose metadata is up-to-date for
every local file, `sync_up` would schedule nothing. -/
theorem syncDownRun_uploads_nil (o : Oracles) (v : World)
    (hl : keysNodup v.localFs) (hr : keysNodup v.remoteFs)
    (hclean : ∀ q m, alookup v.localFs q = some m →
      ∃ r, alookup v.md.files q = some r ∧ ¬ m > r.mtime) :
    filesToUpload (syncDownRun o v).localFs (syncDownRun o v).md.files = [] := by
  have hDnd : keysNodup (filesToDownload v.localFs v.md.files v.remoteFs) :=
    filesToDownload_keysNodup _ _ _ hr
  have hl2 : keysNodup (syncDownRun o v).localFs :=
    runDownloadBatch_localFs_keysNodup o _ _ v hl
  unfold filesToUpload
  rw [List.filterMap_eq_nil_iff]
  intro e he
  obtain ⟨q, m⟩ := e
  have hlk2 : alookup (syncDownRun o v).localFs q = some m :=
    alookup_eq_some_of_mem hl2 he
  by_cases hq : q ∈ (filesToDownload v.localFs v.md.files v.remoteFs).map Prod.fst
  · rcases List.mem_map.mp hq with ⟨b, hb, hfst⟩
    obtain ⟨a, info⟩ := b
    have ha : a = q := hfst
    subst ha
    obtain ⟨hL, hF⟩ := runDownloadBatch_lookup_mem_success o (fun _ => .success)
      (filesToDownload v.localFs v.md.files v.remoteFs) v (a, info) hDnd hb rfl
    have hm' : m = o.dlMtime a := Option.some_inj.mp (hlk2.symm.trans hL)
    refine upDecision_none_of_le hF ?_
    rw [hm']
    exact lt_irrefl _
  · obtain ⟨hF2, hL2⟩ := runDownloadBatch_lookup_not_mem o (fun _ => .success)
      (filesToDownload v.localFs v.md.files v.remoteFs) v q hq
    have hvl : alookup v.localFs q = some m := hL2.symm.trans hlk2
    obtain ⟨r, hrq, hle⟩ := hclean q m hvl
    rw [upDecision_congr ((syncDownRun o v).md.files) v.md.files (q, m) hF2]
    exact upDecision_none_of_le hrq hle

/-- After any download phase, a second download scan schedules nothing:
every remote entry was either just downloaded (so its `modifiedTime` now
equals the stored `'drive_mtime'`) or was already decided against. -/
theorem syncDownRun_downloads_nil (o : Oracles) (v : World)
    (hr : keysNodup v.remoteFs) :
    filesToDownload (syncDownRun o v).localFs (syncDownRun o v).md.files
      (syncDownRun o v).remoteFs = [] := by
  have hDnd : keysNodup (filesToDownload v.localFs v.md.files v.remoteFs) :=
    filesToDownload_keysNodup _ _ _ hr
  have hrm : (syncDownRun o v).remoteFs = v.remoteFs :=
    runDownloadBatch_remoteFs o _ _ v
  rw [hrm]
  unfold filesToDownload
  rw [List.filterMap_eq_nil_iff]
  intro e he
  obtain ⟨q, info⟩ := e
  cases hdec : downDecision v.localFs v.md.files (q, info) with
  | some b =>
    have hb : b = (q, info) := downDecision_eq_some hdec
    rw [hb] at hdec
    have hmem : (q, info) ∈ filesToDownload v.localFs v.md.files v.remoteFs :=
      List.mem_filterMap.mpr ⟨(q, info), he, hdec⟩
    obtain ⟨hL, hF⟩ := runDownloadBatch_lookup_mem_success o (fun _ => .success)
      (filesToDownload v.localFs v.md.files v.remoteFs) v (q, info) hDnd hmem rfl
    exact downDecision_none_of_eq hL hF rfl
  | none =>
    have hnk := not_mem_keys_filesToDownload v.localFs v.md.files v.remoteFs q info hr he hdec
    obtain ⟨hF2, hL2⟩ := runDownloadBatch_lookup_not_mem o (fun _ => .success)
      (filesToDownload v.localFs v.md.files v.remoteFs) v q hnk
    rw [downDecision_congr ((syncDownRun o v).localFs) v.localFs
      ((syncDownRun o v).md.files) v.md.files (q, info) hL2 hF2]
    exact hdec

theorem upDecision_some_iff (F : List (String × FileRecord)) (q : String) (m : Nat) :
    upDecision F (q, m) = some q ↔
      alookup F q = none ∨ ∃ r, alookup F q = some r ∧ m > r.mtime := by
  unfold upDecision
  cases h1 : alookup F q with
  | none => simp [h1]
  | some r =>
    by_cases h2 : m > r.mtime
    · simp [h1, h2]
    · simp [h1, h2]

/-!
## Concrete state used by the witnesses
-/

def exampleOracles : Oracles :=
  ⟨fun _ => "mtimeUpd", fun _ => "newId", fun _ => "mtimeNew", fun _ => 7⟩

def exampleWorld : World :=
  ⟨[("a", 5)], [("a", ⟨"X", "T2"⟩)], ⟨[("a", ⟨4, "X", "T1"⟩)], []⟩⟩

/-!
## Claims
-/

/-- C1: Conflict safety.  For every path present in both the local and the
remote set whose remote `modifiedTime` differs from the recorded
`'drive_mtime'` and whose current local mtime differs from the recorded
`'mtime'`, `sync_down` reports a conflict, does not schedule the download,
leaves the local file untouched, and leaves the metadata record for that
path unchanged. -/
theorem conflict_safety (o : Oracles) (w : World) (p : String) (lm : Nat)
    (info : DriveInfo) (r : FileRecord)
    (hr : keysNodup w.remoteFs)
    (hlp : alookup w.localFs p = some lm)
    (hrp : alookup w.remoteFs p = some info)
    (hmd : alookup w.md.files p = some r)
    (hdm : info.mtime ≠ r.drive_mtime)
    (hlm : lm ≠ r.mtime) :
    p ∈ downloadConflicts w.localFs w.md.files w.remoteFs ∧
    p ∉ (filesToDownload w.localFs w.md.files w.remoteFs).map Prod.fst ∧
    alookup (syncDownRun o w).localFs p = some lm ∧
    alookup (syncDownRun o w).md.files p = some r := by
  have hdec : downDecision w.localFs w.md.files (p, info) = none := by
    simp [downDecision, hlp, hmd, hdm, hlm]
  have hconf : conflictDecision w.localFs w.md.files (p, info) = some p := by
    simp [conflictDecision, hlp, hmd, hdm, hlm]
  have hmem : (p, info) ∈ w.remoteFs := mem_of_alookup_eq_some hrp
  have h1 : p ∈ downloadConflicts w.localFs w.md.files w.remoteFs :=
    List.mem_filterMap.mpr ⟨(p, info), hmem, hconf⟩
  have h2 : p ∉ (filesToDownload w.localFs w.md.files w.remoteFs).map Prod.fst :=
    not_mem_keys_filesToDownload w.localFs w.md.files w.remoteFs p info hr hmem hdec
  obtain ⟨h3, h4⟩ := runDownloadBatch_lookup_not_mem o (fun _ => .success)
    (filesToDownload w.localFs w.md.files w.remoteFs) w p h2
  exact ⟨h1, h2, h4.trans hlp, h3.trans hmd⟩

/-- Witness for C1 at a concrete conflicting state: local mtime 5 vs
recorded 4, remote time T2 vs recorded T1. -/
theorem conflict_safety_witness :
    (keysNodup exampleWorld.remoteFs ∧
     alookup exampleWorld.localFs "a" = some 5 ∧
     alookup exampleWorld.remoteFs "a" = some ⟨"X", "T2"⟩ ∧
     alookup exampleWorld.md.files "a" = some ⟨4, "X", "T1"⟩ ∧
     (DriveInfo.mtime ⟨"X", "T2"⟩ ≠ FileRecord.drive_mtime ⟨4, "X", "T1"⟩) ∧
     (5 ≠ FileRecord.mtime ⟨4, "X", "T1"⟩)) ∧
    ("a" ∈ downloadConflicts exampleWorld.localFs exampleWorld.md.files exampleWorld.remoteFs ∧
     "a" ∉ (filesToDownload exampleWorld.localFs exampleWorld.md.files
        exampleWorld.remoteFs).map Prod.fst ∧
     alookup (syncDownRun exampleOracles exampleWorld).localFs "a" = some 5 ∧
     alookup (syncDownRun exampleOracles exampleWorld).md.files "a" = some ⟨4, "X", "T1"⟩) :=
  ⟨⟨by decide, by decide, by decide, by decide, by decide, by decide⟩,
   conflict_safety exampleOracles exampleWorld "a" 5 ⟨"X", "T2"⟩ ⟨4, "X", "T1"⟩
     (by decide) (by decide) (by decide) (by decide) (by decide) (by decide)⟩

/-- C2: Idempotence.  After a full sync cycle, with no intervening change to
the local tree, the remote tree or the metadata, a second cycle schedules
zero uploads and zero downloads, and consequently leaves the state
unchanged. -/
theorem sync_cycle_idempotent (o o2 : Oracles) (w : World)
    (hl : keysNodup w.localFs) (hr : keysNodup w.remoteFs) :
    filesToUpload (syncCycle o w).localFs (syncCycle o w).md.files = [] ∧
    filesToDownload (syncCycle o w).localFs (syncCycle o w).md.files
      (syncCycle o w).remoteFs = [] ∧
    syncCycle o2 (syncCycle o w) = syncCycle o w := by
  have hl1 : keysNodup (syncUpRun o w).localFs := by
    rw [syncUpRun_localFs]
    exact hl
  have hr1 : keysNodup (syncUpRun o w).remoteFs :=
    runUploadBatch_remoteFs_keysNodup o _ _ w hr
  have hclean : ∀ q m, alookup (syncUpRun o w).localFs q = some m →
      ∃ r, alookup (syncUpRun o w).md.files q = some r ∧ ¬ m > r.mtime := by
    intro q m hq
    apply syncUpRun_clean o w hl q m
    apply mem_of_alookup_eq_some
    rw [← syncUpRun_localFs o w]
    exact hq
  have hA : filesToUpload (syncCycle o w).localFs (syncCycle o w).md.files = [] :=
    syncDownRun_uploads_nil o (syncUpRun o w) hl1 hr1 hclean
  have hB : filesToDownload (syncCycle o w).localFs (syncCycle o w).md.files
      (syncCycle o w).remoteFs = [] :=
    syncDownRun_downloads_nil o (syncUpRun o w) hr1
  refine ⟨hA, hB, ?_⟩
  have h1 : syncUpRun o2 (syncCycle o w) = syncCycle o w := by
    unfold syncUpRun
    rw [hA]
    exact runUploadBatch_nil o2 _ (syncCycle o w)
  show syncDownRun o2 (syncUpRun o2 (syncCycle o w)) = syncCycle o w
  rw [h1]
  show runDownloadBatch o2 (fun _ => .success)
    (filesToDownload (syncCycle o w).localFs (syncCycle o w).md.files
      (syncCycle o w).remoteFs) (syncCycle o w) = syncCycle o w
  rw [hB]
  exact runDownloadBatch_nil o2 _ (syncCycle o w)

/-- Witness for C2 at a concrete state: one local-only file and one
remote-only file. -/
theorem sync_cycle_idempotent_witness :
    (keysNodup exampleWorld.localFs ∧ keysNodup exampleWorld.remoteFs) ∧
    (filesToUpload (syncCycle exampleOracles exampleWorld).localFs
        (syncCycle exampleOracles exampleWorld).md.files = [] ∧
     filesToDownload (syncCycle exampleOracles exampleWorld).localFs
        (syncCycle exampleOracles exampleWorld).md.files
        (syncCycle exampleOracles exampleWorld).remoteFs = [] ∧
     syncCycle exampleOracles (syncCycle exampleOracles exampleWorld) =
       syncCycle exampleOracles exampleWorld) :=
  ⟨⟨by decide, by decide⟩,
   sync_cycle_idempotent exampleOracles exampleOracles exampleWorld (by decide) (by decide)⟩

/-- C3: Upload decision rule.  A local path is scheduled for upload iff it is
absent from the metadata, or present with the current local mtime strictly
greater than the stored `'mtime'`; otherwise no upload is scheduled for it. -/
theorem upload_decision_rule (localFs : List (String × Nat))
    (files : List (String × FileRecord)) (q : String) (m : Nat)
    (hnd : keysNodup localFs) (hm : (q, m) ∈ localFs) :
    q ∈ filesToUpload localFs files ↔
      alookup files q = none ∨ ∃ r, alookup files q = some r ∧ m > r.mtime :=
  (mem_filesToUpload_iff localFs files q m hnd hm).trans
    (upDecision_some_iff files q m)

/-- Witness for C3 at a concrete state: local file `a` with mtime 5 and an
empty metadata dict. -/
theorem upload_decision_rule_witness :
    (keysNodup [("a", 5)] ∧ ("a", 5) ∈ [("a", (5 : Nat))]) ∧
    ("a" ∈ filesToUpload [("a", 5)] [] ↔
      alookup ([] : List (String × FileRecord)) "a" = none ∨
      ∃ r, alookup ([] : List (String × FileRecord)) "a" = some r ∧ 5 > r.mtime) :=
  ⟨⟨by decide, by decide⟩,
   upload_decision_rule [("a", 5)] [] "a" 5 (by decide) (by decide)⟩

/-!
## Completion events (claim C9)

The only two statements in the program that write to
`self.metadata['files']` are the completion blocks of `_upload_file`
(lines 220-225) and `_download_file` (lines 255-260); both assign a full
three-field dict `{'mtime': m, 'drive_id': i, 'drive_mtime': dm}` under the
metadata lock.  `CompletionEvent` records one such completion and
`applyCompletion` is the assignment it performs.
-/

inductive CompletionEvent
  | upload (p : String) (m : Nat) (i : String) (dm : String)
  | download (p : String) (m : Nat) (i : String) (dm : String)

def eventPath : CompletionEvent → String
  | .upload p _ _ _ => p
  | .download p _ _ _ => p

def eventRecord : CompletionEvent → FileRecord
  | .upload _ m i dm => ⟨m, i, dm⟩
  | .download _ m i dm => ⟨m, i, dm⟩

/-- The metadata write of one transfer completion: a single whole-record
assignment `self.metadata['files'][rel_path] = {...}`. -/
def applyCompletion (F : List (String × FileRecord)) (e : CompletionEvent) :
    List (String × FileRecord) :=
  ainsert F (eventPath e) (eventRecord e)

/-- C9: FileRecord pairing invariant.  In every metadata state reachable by
any sequence of upload and download completions, each record either was
present initially or is exactly the record written by one single completion
event: `'mtime'` and `'drive_mtime'` are never updated independently. -/
theorem file_record_pairing (es : List CompletionEvent) :
    ∀ (F0 : List (String × FileRecord)) (p : String) (r : FileRecord),
      alookup (es.foldl applyCompletion F0) p = some r →
      alookup F0 p = some r ∨ ∃ e ∈ es, eventPath e = p ∧ eventRecord e = r := by
  induction es with
  | nil =>
    intro F0 p r h
    exact Or.inl h
  | cons e t ih =>
    intro F0 p r h
    rcases ih (applyCompletion F0 e) p r h with h1 | h1
    · by_cases hp : p = eventPath e
      · subst hp
        right
        refine ⟨e, List.mem_cons_self e t, rfl, ?_⟩
        rw [applyCompletion, alookup_ainsert_self] at h1
        exact Option.some_inj.mp h1
      · left
        rw [applyCompletion, alookup_ainsert_ne _ _ _ _ hp] at h1
        exact h1
    · rcases h1 with ⟨e1, he1, hpe, hre⟩
      exact Or.inr ⟨e1, List.mem_cons_of_mem e he1, hpe, hre⟩

/-- Witness for C9: an upload completion followed by a download completion
of another path; each surviving record comes from its single event. -/
theorem file_record_pairing_witness :
    alookup ([CompletionEvent.upload "a" 5 "X" "T1",
              CompletionEvent.download "b" 7 "Y" "T2"].foldl applyCompletion [])
      "a" = some ⟨5, "X", "T1"⟩ ∧
    (alookup ([] : List (String × FileRecord)) "a" = some ⟨5, "X", "T1"⟩ ∨
     ∃ e ∈ [CompletionEvent.upload "a" 5 "X" "T1",
            CompletionEvent.download "b" 7 "Y" "T2"],
       eventPath e = "a" ∧ eventRecord e = ⟨5, "X", "T1"⟩) :=
  ⟨by decide,
   file_record_pairing [CompletionEvent.upload "a" 5 "X" "T1",
     CompletionEvent.download "b" 7 "Y" "T2"] [] "a" ⟨5, "X", "T1"⟩ (by decide)⟩

/-- C10: Frame property.  Every sync operation — an individual upload or
download attempt with any outcome, an upload or download batch, and a full
cycle — writes only `self.metadata['files']`; `self.metadata['drive_files']`
is never changed. -/
theorem drive_files_frame (o : Oracles) (tc : TransferOutcome) (w : World)
    (p : String) (e : String × DriveInfo) (outcU outcD : String → TransferOutcome)
    (ps : List String) (items : List (String × DriveInfo)) :
    (uploadAttempt o tc w p).md.drive_files = w.md.drive_files ∧
    (downloadAttempt o tc w e).md.drive_files = w.md.drive_files ∧
    (runUploadBatch o outcU ps w).md.drive_files = w.md.drive_files ∧
    (runDownloadBatch o outcD items w).md.drive_files = w.md.drive_files ∧
    (syncCycle o w).md.drive_files = w.md.drive_files := by
  refine ⟨uploadAttempt_drive_files o tc w p, downloadAttempt_drive_files o tc w e,
    runUploadBatch_drive_files o outcU ps w, runDownloadBatch_drive_files o outcD items w, ?_⟩
  show (syncDownRun o (syncUpRun o w)).md.drive_files = w.md.drive_files
  have h1 : (syncDownRun o (syncUpRun o w)).md.drive_files =
      (syncUpRun o w).md.drive_files :=
    runDownloadBatch_drive_files o _ _ (syncUpRun o w)
  have h2 : (syncUpRun o w).md.drive_files = w.md.drive_files :=
    runUploadBatch_drive_files o _ _ w
  exact h1.trans h2

theorem runUploadBatch_files_of_fail (o : Oracles) (outc : String → TransferOutcome)
    (ps : List String) :
    ∀ (w : World) (p : String), outc p ≠ .success →
      alookup (runUploadBatch o outc ps w).md.files p = alookup w.md.files p := by
  induction ps with
  | nil => intro w p _; rfl
  | cons q t ih =>
    intro w p h
    rw [runUploadBatch_cons]
    have step : alookup (uploadAttempt o (outc q) w q).md.files p =
        alookup w.md.files p := by
      by_cases hpq : p = q
      · subst hpq
        rw [uploadAttempt_files_nonsuccess o (outc p) w p h]
      · exact (uploadAttempt_lookup_ne o (outc q) w q p hpq).1
    exact (ih _ p h).trans step

theorem runDownloadBatch_files_of_fail (o : Oracles) (outc : String → TransferOutcome)
    (items : List (String × DriveInfo)) :
    ∀ (w : World) (p : String), outc p ≠ .success →
      alookup (runDownloadBatch o outc items w).md.files p = alookup w.md.files p := by
  induction items with
  | nil => intro w p _; rfl
  | cons f t ih =>
    intro w p h
    rw [runDownloadBatch_cons]
    have step : alookup (downloadAttempt o (outc f.1) w f).md.files p =
        alookup w.md.files p := by
      by_cases hpq : p = f.1
      · subst hpq
        rw [downloadAttempt_files_nonsuccess o (outc f.1) w f h]
      · exact (downloadAttempt_lookup_ne o (outc f.1) w f p hpq).1
    exact (ih _ p h).trans step

/-- C8: Per-item failure atomicity.  In a batch with arbitrary per-path
outcomes: a path whose transfer does not succeed keeps exactly its previous
metadata entry (upload and download alike); every other path whose transfer
succeeds still gets its completion record, so the batch continues past
failures; and the work lists schedule each path at most once, so there is
no within-cycle retry. -/
theorem per_item_failure_isolation (o : Oracles)
    (outcU outcD : String → TransferOutcome) (w : World)
    (ps : List String) (items : List (String × DriveInfo)) :
    (∀ p, outcU p ≠ .success →
      alookup (runUploadBatch o outcU ps w).md.files p = alookup w.md.files p) ∧
    (∀ p, outcD p ≠ .success →
      alookup (runDownloadBatch o outcD items w).md.files p = alookup w.md.files p) ∧
    (∀ q m, ps.Nodup → q ∈ ps → outcU q = .success → alookup w.localFs q = some m →
      alookup (runUploadBatch o outcU ps w).md.files q = some (uploadedRecord o w q m)) ∧
    (∀ e : String × DriveInfo, keysNodup items → e ∈ items → outcD e.1 = .success →
      alookup (runDownloadBatch o outcD items w).md.files e.1 =
        some ⟨o.dlMtime e.1, e.2.id, e.2.mtime⟩) ∧
    (keysNodup w.localFs → (filesToUpload w.localFs w.md.files).Nodup) ∧
    (keysNodup w.remoteFs →
      keysNodup (filesToDownload w.localFs w.md.files w.remoteFs)) := by
  refine ⟨fun p h => runUploadBatch_files_of_fail o outcU ps w p h,
    fun p h => runDownloadBatch_files_of_fail o outcD items w p h,
    fun q m hnd hq hs hm =>
      (runUploadBatch_lookup_mem_success o outcU ps w q m hnd hq hs hm).1,
    fun e hnd he hs =>
      (runDownloadBatch_lookup_mem_success o outcD items w e hnd he hs).2,
    fun hl => filesToUpload_nodup w.localFs w.md.files hl,
    fun hr => filesToDownload_keysNodup w.localFs w.md.files w.remoteFs hr⟩

/-- An outcome assignment for the C8 witness: path `a` fails, others
succeed. -/
def exampleOutcome : String → TransferOutcome :=
  fun s => if s = "a" then .failEarly else .success

/-- A two-file state for the C8 witness. -/
def exampleWorld2 : World :=
  ⟨[("a", 5), ("b", 3)], [("b", ⟨"Y", "T2"⟩)], ⟨[("a", ⟨9, "Z", "T0"⟩)], []⟩⟩

/-- Witness for C8: in a batch over paths `a` (failing) and `b`
(succeeding), `a` keeps its previous metadata entry and `b` gets its
completion record. -/
theorem per_item_failure_isolation_witness :
    (exampleOutcome "a" ≠ TransferOutcome.success ∧
     [("a" : String), "b"].Nodup ∧ ("b" : String) ∈ [("a" : String), "b"] ∧
     exampleOutcome "b" = TransferOutcome.success ∧
     alookup exampleWorld2.localFs "b" = some 3) ∧
    (alookup (runUploadBatch exampleOracles exampleOutcome ["a", "b"]
        exampleWorld2).md.files "a" = alookup exampleWorld2.md.files "a" ∧
     alookup (runUploadBatch exampleOracles exampleOutcome ["a", "b"]
        exampleWorld2).md.files "b" =
       some (uploadedRecord exampleOracles exampleWorld2 "b" 3)) :=
  ⟨⟨by decide, by decide, by decide, by decide, by decide⟩,
   (per_item_failure_isolation exampleOracles exampleOutcome exampleOutcome
      exampleWorld2 ["a", "b"] []).1 "a" (by decide),
   (per_item_failure_isolation exampleOracles exampleOutcome exampleOutcome
      exampleWorld2 ["a", "b"] []).2.2.1 "b" 3 (by decide) (by decide) (by decide)
     (by decide)⟩

/-!
## Metadata persistence (claims C6, C7)

`_load_metadata` (lines 113-122) reads `sync_metadata.json` with
`json.load`, catching exactly `json.JSONDecodeError`; `_save_metadata`
(lines 124-127) opens the same file with mode `'w'` — which truncates it
immediately — and then `json.dump`s the in-memory metadata into it.
-/

/-- JSON values, the possible results of a successful `json.load`. -/
inductive Json
  | null
  | bool (b : Bool)
  | num (n : Int)
  | str (s : String)
  | arr (xs : List Json)
  | obj (fields : List (String × Json))

/-- The states of the persisted metadata file as `_load_metadata` can find
it: absent, present but not syntactically valid JSON (`json.load` raises
`JSONDecodeError`), or present and parsing to a JSON value. -/
inductive PersistedDoc
  | missing
  | invalidJson
  | jsonValue (v : Json)

/-- The fresh ledger `{'files': {}, 'drive_files': {}}` (lines 121-122). -/
def emptyLedgerJson : Json :=
  .obj [("files", .obj []), ("drive_files", .obj [])]

/-- `_load_metadata` (lines 113-122): a missing file and a
`JSONDecodeError` both yield the fresh ledger; any successfully parsed
value is returned as-is. -/
def loadMetadata : PersistedDoc → Json
  | .missing => emptyLedgerJson
  | .invalidJson => emptyLedgerJson
  | .jsonValue v => v

/-- A value has the shape the rest of the program requires of
`self.metadata`: a JSON object whose `'files'` entry is an object. -/
def isLedgerShaped : Json → Bool
  | .obj fields =>
    match alookup fields "files" with
    | some (.obj _) => true
    | _ => false
  | _ => false

/-- Counterexample to C7 as stated: the document `[]` is valid JSON but
malformed as a ledger, yet `_load_metadata` returns it unchanged instead of
an empty ledger (only `json.JSONDecodeError` is caught and replaced). -/
theorem corrupt_ledger_not_reset :
    isLedgerShaped (Json.arr []) = false ∧
    loadMetadata (PersistedDoc.jsonValue (Json.arr [])) ≠ emptyLedgerJson :=
  ⟨rfl, fun h => Json.noConfusion h⟩

/-- C7 amended: the load operation returns an empty Ledger, without
raising, for a missing file and for every document that fails JSON parsing;
a document that parses as JSON but is not ledger-shaped is returned
unchanged rather than replaced by an empty Ledger. -/
theorem corrupt_ledger_recovery :
    loadMetadata PersistedDoc.missing = emptyLedgerJson ∧
    loadMetadata PersistedDoc.invalidJson = emptyLedgerJson ∧
    ∀ v, loadMetadata (PersistedDoc.jsonValue v) = v :=
  ⟨rfl, rfl, fun _ => rfl⟩

/-- The successive contents of the backing document during
`_save_metadata` (lines 124-127): the previous document, then the empty
file the instant `open(METADATA_FILE, 'w')` truncates it, then the complete
serialized snapshot once `json.dump` finishes. -/
def saveMetadataStates (oldDoc serialized : String) : List String :=
  [oldDoc, "", serialized]

/-- Counterexample to C6 as stated: between truncation and the completed
dump the document is empty — neither the previous document nor a complete
snapshot — so a failure of `json.dump` leaves a destroyed document. -/
theorem save_metadata_not_atomic :
    "" ∈ saveMetadataStates "oldSnapshot" "newSnapshot" ∧
    ("" : String) ≠ "oldSnapshot" ∧ ("" : String) ≠ "newSnapshot" ∧
    ¬ (∀ s ∈ saveMetadataStates "oldSnapshot" "newSnapshot",
        s = "oldSnapshot" ∨ s = "newSnapshot") := by
  refine ⟨by decide, by decide, by decide, fun h => ?_⟩
  rcases h "" (by decide) with h1 | h1 <;> exact absurd h1 (by decide)

/-- C6 amended: `_save_metadata` truncates the backing document in place
and then writes the serialized snapshot into it; on success the document
holds the complete snapshot, but the empty intermediate state is reachable,
so an interrupted persist can leave a document that is neither the previous
one nor a complete snapshot. -/
theorem save_metadata_write_behavior (oldDoc serialized : String) :
    (saveMetadataStates oldDoc serialized).head? = some oldDoc ∧
    (saveMetadataStates oldDoc serialized).getLast? = some serialized ∧
    "" ∈ saveMetadataStates oldDoc serialized ∧
    ∀ s ∈ saveMetadataStates oldDoc serialized,
      s = oldDoc ∨ s = "" ∨ s = serialized := by
  refine ⟨rfl, rfl, by simp [saveMetadataStates], ?_⟩
  intro s hs
  simpa [saveMetadataStates] using hs

/-- Witness for the amended C6 at concrete documents. -/
theorem save_metadata_write_behavior_witness :
    "" ∈ saveMetadataStates "docA" "docB" ∧
    (("" : String) = "docA" ∨ ("" : String) = "" ∨ ("" : String) = "docB") :=
  ⟨by decide, (save_metadata_write_behavior "docA" "docB").2.2.2 "" (by decide)⟩

/-!
## Download write path (claim C5)
-/

/-- The observable effects of `_download_file` (lines 230-263) on success:
the local directories after `os.makedirs(dirname, exist_ok=True)` (line
237), the successive observable contents of `local_path` (old content,
empty right after `open(local_path, 'wb')` truncates, then the full
downloaded content), and the metadata after the completion record is
stored. -/
structure DlTrace where
  dirsAfter : List String
  states : List (Option String)
  filesAfter : List (String × FileRecord)

/-- `_download_file` for `local_path` with parent directory `parentDir`,
previous content `oldContent` (`none` when the file does not exist),
downloaded bytes `remoteContent`, Drive file id `fileId`, the `drive_mtime`
string passed in, and the mtime read back by `os.path.getmtime` after the
write. -/
def downloadFileTrace (localDirs : List String) (parentDir : String)
    (oldContent : Option String) (remoteContent : String)
    (fileId : String) (driveMtime : String) (readBackMtime : Nat)
    (relPath : String) (files : List (String × FileRecord)) : DlTrace :=
  { dirsAfter := if parentDir ∈ localDirs then localDirs else parentDir :: localDirs
    states := [oldContent, some "", some remoteContent]
    filesAfter := ainsert files relPath ⟨readBackMtime, fileId, driveMtime⟩ }

/-- Counterexample to C5 as stated: `_download_file` writes the final path
by truncate-then-write (`open(local_path, 'wb')` then `f.write`), not by an
atomic rename of a temporary file, so the empty file is an observable state
that is neither the old nor the new content. -/
theorem download_not_atomic :
    some "" ∈ (downloadFileTrace [] "notes" (some "hello") "world"
      "X" "T1" 7 "notes/a.md" []).states ∧
    (some "" : Option String) ≠ some "hello" ∧
    (some "" : Option String) ≠ some "world" ∧
    ¬ (∀ s ∈ (downloadFileTrace [] "notes" (some "hello") "world"
          "X" "T1" 7 "notes/a.md" []).states,
        s = some "hello" ∨ s = some "world") := by
  refine ⟨by decide, by decide, by decide, fun h => ?_⟩
  rcases h (some "") (by decide) with h1 | h1 <;> exact absurd h1 (by decide)

/-- C5 amended: the download ensures the local parent directory exists,
buffers the remote content fully in memory, then writes it into the final
path by truncate-then-write — so the empty intermediate state is observable
and the write is not atomic — and on success records a metadata entry
pairing the read-back local mtime with the remote mtime passed in. -/
theorem download_write_behavior (localDirs : List String) (parentDir : String)
    (oldContent : Option String) (remoteContent : String)
    (fileId : String) (driveMtime : String) (readBackMtime : Nat)
    (relPath : String) (files : List (String × FileRecord)) :
    parentDir ∈ (downloadFileTrace localDirs parentDir oldContent remoteContent
      fileId driveMtime readBackMtime relPath files).dirsAfter ∧
    (downloadFileTrace localDirs parentDir oldContent remoteContent
      fileId driveMtime readBackMtime relPath files).states =
      [oldContent, some "", some remoteContent] ∧
    alookup (downloadFileTrace localDirs parentDir oldContent remoteContent
      fileId driveMtime readBackMtime relPath files).filesAfter relPath =
      some ⟨readBackMtime, fileId, driveMtime⟩ := by
  refine ⟨?_, rfl, alookup_ainsert_self _ _ _⟩
  unfold downloadFileTrace
  by_cases h : parentDir ∈ localDirs
  · simp only [if_pos h]
    exact h
  · simp [h]

/-!
## Remote folder resolution (claim C4)

`_get_or_create_drive_folder_path` (lines 140-171) walks the folder
segments; at each level it issues a listing query for a same-named,
non-trashed folder child and, if none is found, a create call.  The listing
and the create are two separate API calls with no lock anywhere in the
function (the only lock in the program is `_metadata_lock`), and the
function runs on every worker thread of the upload pool.
-/

/-- One remote folder: parent id, name, own id.  Google Drive happily holds
several same-named folders under one parent, so the store is a plain list. -/
structure FolderEntry where
  parent : String
  name : String
  id : String
deriving DecidableEq

/-- The remote folder tree plus a counter supplying fresh folder ids. -/
structure DriveTree where
  entries : List FolderEntry
  nextId : Nat
deriving DecidableEq

/-- Ids issued by successive create calls. -/
def freshId (n : Nat) : String := "created" ++ toString n

/-- The listing query of lines 147-154: first non-trashed folder child of
`parent` named `name`, if any. -/
def findFolder (entries : List FolderEntry) (parent name : String) : Option String :=
  (entries.find? fun e => e.parent == parent && e.name == name).map FolderEntry.id

/-- The sequential meaning of `_get_or_create_drive_folder_path` starting
at folder `parentId`: descend into each segment, creating it if absent. -/
def getOrCreateDriveFolderPath (st : DriveTree) (parentId : String) :
    List String → DriveTree × String
  | [] => (st, parentId)
  | name :: rest =>
    match findFolder st.entries parentId name with
    | some fid => getOrCreateDriveFolderPath st fid rest
    | none =>
      getOrCreateDriveFolderPath
        ⟨st.entries ++ [⟨parentId, name, freshId st.nextId⟩], st.nextId + 1⟩
        (freshId st.nextId) rest

/-- One worker thread executing `_get_or_create_drive_folder_path`:
remaining segments, current parent id, and — when a listing response has
been received but not yet acted upon — its result.  The window between the
listing call and the create call is where two workers can interleave. -/
structure Worker where
  segs : List String
  parent : String
  listed : Option (Option String)
deriving DecidableEq

/-- One atomic step of a worker: issue the listing query for the next
segment (lines 147-154), descend into a found folder (line 157), or create
the missing folder and descend into it (lines 159-169). -/
def workerStep (st : DriveTree) (w : Worker) : DriveTree × Worker :=
  match w.segs, w.listed with
  | [], _ => (st, w)
  | name :: _, none =>
    (st, { w with listed := some (findFolder st.entries w.parent name) })
  | _ :: rest, some (some fid) =>
    (st, ⟨rest, fid, none⟩)
  | name :: rest, some none =>
    (⟨st.entries ++ [⟨w.parent, name, freshId st.nextId⟩], st.nextId + 1⟩,
     ⟨rest, freshId st.nextId, none⟩)

/-- Run an interleaving: the schedule names which worker takes the next
step.  Steps of finished or out-of-range workers are no-ops. -/
def runSchedule : List Nat → DriveTree × List Worker → DriveTree × List Worker
  | [], s => s
  | i :: sched, (st, ws) =>
    match ws[i]? with
    | none => runSchedule sched (st, ws)
    | some w =>
      runSchedule sched ((workerStep st w).1, ws.set i (workerStep st w).2)

/-- How many remote folders named `name` exist under `parent`. -/
def countFolders (st : DriveTree) (parent name : String) : Nat :=
  (st.entries.filter fun e => e.parent == parent && e.name == name).length

theorem findFolder_append_single (l : List FolderEntry) (e : FolderEntry)
    (parent name : String) :
    findFolder (l ++ [e]) parent name =
      match findFolder l parent name with
      | some i => some i
      | none => if e.parent == parent && e.name == name then some e.id else none := by
  unfold findFolder
  rw [List.find?_append]
  cases hf : List.find? (fun x => x.parent == parent && x.name == name) l with
  | some x => simp [Option.or]
  | none =>
    cases hb : (e.parent == parent && e.name == name) with
    | true => simp [Option.or, List.find?, hb]
    | false => simp [Option.or, List.find?, hb]

theorem countFolders_eq_zero_of_findFolder_none (st : DriveTree)
    (parent name : String) (h : findFolder st.entries parent name = none) :
    countFolders st parent name = 0 := by
  unfold countFolders
  unfold findFolder at h
  rw [Option.map_eq_none'] at h
  rw [List.find?_eq_none] at h
  rw [List.length_eq_zero]
  rw [List.filter_eq_nil_iff]
  intro e he
  exact h e he

/-- Counterexample to C4 as stated: `_get_or_create_drive_folder_path`
takes no lock between its listing call and its create call, so two workers
resolving the same missing folder `f` under the sync root can both observe
it absent and both create it — the schedule list-list-create-create yields
two folders named `f`, not exactly one. -/
theorem folder_creation_race :
    countFolders (runSchedule [0, 1, 0, 1]
      (⟨[], 0⟩, [⟨["f"], "root", none⟩, ⟨["f"], "root", none⟩])).1 "root" "f" = 2 ∧
    ¬ countFolders (runSchedule [0, 1, 0, 1]
      (⟨[], 0⟩, [⟨["f"], "root", none⟩, ⟨["f"], "root", none⟩])).1 "root" "f" ≤ 1 := by
  exact ⟨by decide, by decide⟩

/-- C4 amended: the code has no mutual exclusion keyed by the segment
sequence, so exactly-one-creation holds only for serialized resolutions:
when the second worker starts after the first finishes, exactly one folder
is created and both workers resolve to its id.  (Interleaved workers can
each create one, as the race counterexample shows.) -/
theorem folder_creation_serialized (st : DriveTree) (root f : String)
    (h : findFolder st.entries root f = none) :
    countFolders (runSchedule [0, 0, 1, 1]
      (st, [⟨[f], root, none⟩, ⟨[f], root, none⟩])).1 root f = 1 ∧
    (runSchedule [0, 0, 1, 1] (st, [⟨[f], root, none⟩, ⟨[f], root, none⟩])).2 =
      [⟨[], freshId st.nextId, none⟩, ⟨[], freshId st.nextId, none⟩] := by
  have hstep2 : findFolder (st.entries ++ [⟨root, f, freshId st.nextId⟩]) root f =
      some (freshId st.nextId) := by
    rw [findFolder_append_single, h]
    simp
  have hrun : runSchedule [0, 0, 1, 1] (st, [⟨[f], root, none⟩, ⟨[f], root, none⟩]) =
      (⟨st.entries ++ [⟨root, f, freshId st.nextId⟩], st.nextId + 1⟩,
       [⟨[], freshId st.nextId, none⟩, ⟨[], freshId st.nextId, none⟩]) := by
    simp only [runSchedule, workerStep, List.getElem?_cons_zero, List.getElem?_cons_succ,
      List.set, h, hstep2]
  rw [hrun]
  constructor
  · unfold countFolders
    rw [List.filter_append]
    have h0 : List.filter (fun e => e.parent == root && e.name == f) st.entries = [] := by
      have h1 := countFolders_eq_zero_of_findFolder_none st root f h
      unfold countFolders at h1
      exact List.length_eq_zero.mp h1
    rw [h0]
    simp [List.filter]
  · rfl

/-- Witness for the amended C4 on the empty tree. -/
theorem folder_creation_serialized_witness :
    findFolder (DriveTree.entries ⟨[], 0⟩) "root" "g" = none ∧
    (countFolders (runSchedule [0, 0, 1, 1]
      ((⟨[], 0⟩ : DriveTree), [⟨["g"], "root", none⟩, ⟨["g"], "root", none⟩])).1
        "root" "g" = 1 ∧
     (runSchedule [0, 0, 1, 1]
      ((⟨[], 0⟩ : DriveTree), [⟨["g"], "root", none⟩, ⟨["g"], "root", none⟩])).2 =
      [⟨[], freshId (DriveTree.nextId ⟨[], 0⟩), none⟩,
       ⟨[], freshId (DriveTree.nextId ⟨[], 0⟩), none⟩]) :=
  ⟨by decide, folder_creation_serialized ⟨[], 0⟩ "root" "g" (by decide)⟩

end DriveSync
